import Mathlib

/-!
Verification of the CodeCrossConverter archive-classification engine and
conversion orchestrator.  Paths and file contents are modelled as lists of
characters; the ZIP container is modelled by its entry list together with a
validity flag, and per-entry extraction by an outcome oracle.  All
definitions are shallow embeddings of `file_handler.py`, `code_converter.py`
and `app.py`.
-/

/-- Characters of a string literal, used to write path and pattern literals. -/
def strL (s : String) : List Char := s.data

/-- ASCII lowercasing of one character, as Python `str.lower` acts on ASCII. -/
def lowerChar (c : Char) : Char :=
  if 65 ≤ c.toNat ∧ c.toNat ≤ 90 then Char.ofNat (c.toNat + 32) else c

/-- Lowercase an entire path (Python `file_path.lower()`). -/
def lowerP (p : List Char) : List Char := p.map lowerChar

/-- ASCII uppercasing of one character, as Python `str.upper` acts on ASCII. -/
def upperChar (c : Char) : Char :=
  if 97 ≤ c.toNat ∧ c.toNat ≤ 122 then Char.ofNat (c.toNat - 32) else c

/-- Uppercase a whole string (Python `s.upper()`). -/
def upperP (p : List Char) : List Char := p.map upperChar

/-- Python substring test `pat in s`. -/
def containsSub (pat : List Char) : List Char → Bool
  | [] => pat.isEmpty
  | c :: rest => List.isPrefixOf pat (c :: rest) || containsSub pat rest

/-- Final path component, as `os.path.basename` / `pathlib.PurePath.name`
on a path without a trailing slash. -/
def basenameP (p : List Char) : List Char :=
  (p.reverse.takeWhile (fun c => c ≠ '/')).reverse

/-- Number of `/` characters in the path (Python `file_path.count('/')`). -/
def countSlash (p : List Char) : Nat := p.countP (fun c => c = '/')

/-- Index of the last `.` in a list of characters, if any. -/
def lastDotIdx (l : List Char) : Option Nat :=
  match l.reverse.findIdx? (fun c => c = '.') with
  | none => none
  | some k => some (l.length - 1 - k)

/-- `pathlib.Path(p).suffix`: last dot-suffix of the final component, empty
when the dot is the first or last character of that component. -/
def path_suffix (p : List Char) : List Char :=
  let nm := basenameP p
  match lastDotIdx nm with
  | none => []
  | some i => if 0 < i ∧ i < nm.length - 1 then nm.drop i else []

/-- `os.path.splitext`: split off the last dot-suffix of the final component,
provided some character of that component strictly before the dot is not a
dot itself. -/
def splitext (p : List Char) : List Char × List Char :=
  let base := basenameP p
  let dir := p.take (p.length - base.length)
  match lastDotIdx base with
  | none => (p, [])
  | some j =>
    if (base.take j).any (fun c => c ≠ '.') then (dir ++ base.take j, base.drop j)
    else (p, [])

/-- Root part of `os.path.splitext`. -/
def splitext_root (p : List Char) : List Char := (splitext p).1

/-- `FileHandler.code_extensions` looked up with `dict.get(platform, [])`. -/
def code_extensions (platform : List Char) : List (List Char) :=
  if platform = strL "android_java" then [strL ".java", strL ".xml"]
  else if platform = strL "android_kotlin" then [strL ".kt", strL ".xml"]
  else if platform = strL "ios_swift" then [strL ".swift", strL ".storyboard", strL ".xib"]
  else []

/-- `FileHandler.skip_patterns`, verbatim from the source. -/
def skip_patterns : List (List Char) :=
  [strL ".git/", strL ".idea/", strL ".vscode/", strL "__pycache__/",
   strL ".gradle/", strL "build/", strL "bin/", strL "obj/", strL "target/",
   strL ".DS_Store", strL "Thumbs.db", strL ".gitignore", strL ".gitattributes",
   strL "gradle/", strL "gradlew", strL "gradlew.bat", strL "local.properties",
   strL "Pods/", strL "DerivedData/", strL ".xcworkspace/", strL ".xcodeproj/",
   strL ".png", strL ".jpg", strL ".jpeg", strL ".gif", strL ".ico", strL ".svg", strL ".webp",
   strL ".mp3", strL ".mp4", strL ".avi", strL ".mov", strL ".wav",
   strL "proguard-rules.pro", strL ".pro", strL ".properties",
   strL ".md", strL ".txt", strL ".pdf", strL ".docx",
   strL ".zip", strL ".tar", strL ".gz", strL ".rar"]

/-- `FileHandler.preserve_files`, verbatim from the source. -/
def preserve_files : List (List Char) :=
  [strL ".png", strL ".jpg", strL ".jpeg", strL ".gif", strL ".ico", strL ".svg", strL ".webp",
   strL ".mp3", strL ".mp4", strL ".avi", strL ".mov", strL ".wav",
   strL "androidmanifest.xml", strL "info.plist"]

/-- Exact lowercased basenames rejected at the top of `_should_skip_file`. -/
def exact_skip_names : List (List Char) :=
  [strL "gradlew", strL "gradlew.bat", strL "local.properties",
   strL ".ds_store", strL "thumbs.db"]

/-- The suspicious-substring list at the bottom of `_should_skip_file`. -/
def suspicious_patterns : List (List Char) :=
  [strL "generated", strL "cache", strL "temp", strL "tmp",
   strL ".class", strL ".dex", strL ".o"]

/-- One iteration of the `for pattern in self.skip_patterns` loop: folder
patterns are matched as path segments, other patterns by suffix or substring
of the lowercased path. -/
def matchSkipPattern (pl : List Char) (pat : List Char) : Bool :=
  if List.isSuffixOf (strL "/") pat then
    containsSub ('/' :: (pat.dropLast ++ ['/'])) ('/' :: (pl ++ ['/'])) ||
      List.isPrefixOf (pat.dropLast ++ ['/']) pl
  else
    List.isSuffixOf pat pl || containsSub pat pl

/-- `FileHandler._should_skip_file`: exact-basename denylist, pattern
denylist, depth bound, and suspicious substrings, on the lowercased path
(the depth count uses the original path). -/
def should_skip_file (p : List Char) : Bool :=
  let pl := lowerP p
  let fn := basenameP pl
  exact_skip_names.contains fn ||
    skip_patterns.any (matchSkipPattern pl) ||
    decide (countSlash p > 6) ||
    suspicious_patterns.any (fun pat => containsSub pat pl)

/-- The `should_preserve` flag computed inside `_extract_preserve_files`:
a preserve pattern is a suffix of the lowercased path or a substring of its
lowercased basename. -/
def should_preserve (p : List Char) : Bool :=
  let pl := lowerP p
  let fn := basenameP pl
  preserve_files.any (fun pat => List.isSuffixOf pat pl || containsSub pat fn)

/-- Whole preserve condition of `_extract_preserve_files`:
`should_preserve and not self._should_skip_file(file_path)`. -/
def preserve_decision (p : List Char) : Bool :=
  should_preserve p && !should_skip_file p

/-- A ZIP entry naming a directory (`file_path.endswith('/')`). -/
def isDirEntry (p : List Char) : Bool := List.isSuffixOf (strL "/") p

/-- Result of staging one archive entry: extraction succeeded with readable
non-empty content, extraction succeeded but the staged file is empty or
missing, or extraction raised. -/
inductive EntryOutcome where
  | extracted
  | emptyFile
  | failed
deriving DecidableEq

/-- Decoration appended to an error path for an empty or corrupted entry. -/
def emptyTag : List Char := strL " (empty or corrupted)"

/-- Decoration appended to an error path when extraction raised. -/
def failTag : List Char := strL " (extraction failed)"

/-- Which of the three classification lists an entry is routed to. -/
inductive ClassTag where
  | codeFile
  | skipFile
  | errFile (tag : List Char)
deriving DecidableEq

/-- Per-entry branch structure of the loop body in `extract_code_files`:
directories are ignored, skip-matching entries go to the skipped list,
entries with a recognized extension go to the code list or the error list
according to the staging outcome, and all other entries fall through and
are routed nowhere. -/
def classify_entry (validExts : List (List Char)) (outcome : List Char → EntryOutcome)
    (p : List Char) : Option ClassTag :=
  if isDirEntry p then none
  else if should_skip_file p then some ClassTag.skipFile
  else if validExts.contains (lowerP (path_suffix p)) then
    match outcome p with
    | EntryOutcome.extracted => some ClassTag.codeFile
    | EntryOutcome.emptyFile => some (ClassTag.errFile emptyTag)
    | EntryOutcome.failed => some (ClassTag.errFile failTag)
  else none

/-- Decorated error string produced for an entry, when it errors. -/
def err_entry (validExts : List (List Char)) (outcome : List Char → EntryOutcome)
    (p : List Char) : Option (List Char) :=
  match classify_entry validExts outcome p with
  | some (ClassTag.errFile t) => some (p ++ t)
  | _ => none

/-- The three lists returned by `FileHandler.extract_code_files`. -/
structure ExtractResult where
  code : List (List Char)
  skipped : List (List Char)
  errors : List (List Char)
deriving DecidableEq

/-- `FileHandler.extract_code_files`: rejects an unsupported platform, then
a corrupt container, then routes every entry of the archive through the
per-entry branch structure, in order. -/
def extract_code_files (zipOk : Bool) (entries : List (List Char))
    (platform : List Char) (outcome : List Char → EntryOutcome) :
    Except (List Char) ExtractResult :=
  let validExts := code_extensions platform
  if validExts.isEmpty then Except.error (strL "Unsupported platform")
  else if !zipOk then Except.error (strL "Invalid ZIP file")
  else Except.ok
    { code := entries.filter
        (fun p => decide (classify_entry validExts outcome p = some ClassTag.codeFile)),
      skipped := entries.filter
        (fun p => decide (classify_entry validExts outcome p = some ClassTag.skipFile)),
      errors := entries.filterMap (err_entry validExts outcome) }

/-- `FileHandler._extract_preserve_files`: its own container failure is
caught internally and yields an empty list; otherwise a non-directory entry
is staged exactly when the preserve condition holds and staging does not
raise. -/
def extract_preserve_files (zipOk : Bool) (entries : List (List Char))
    (outcome : List Char → EntryOutcome) : List (List Char) :=
  if !zipOk then []
  else entries.filter
    (fun p => !isDirEntry p && preserve_decision p &&
      decide (outcome p ≠ EntryOutcome.failed))

/-- `FileHandler.extract_project_files`: code classification first (its
container failure propagates), then preserve extraction. -/
def extract_project_files (zipOk : Bool) (entries : List (List Char))
    (platform : List Char) (outcome : List Char → EntryOutcome) :
    Except (List Char) (ExtractResult × List (List Char)) :=
  match extract_code_files zipOk entries platform outcome with
  | Except.error e => Except.error e
  | Except.ok r => Except.ok (r, extract_preserve_files zipOk entries outcome)

/-- An entry that the per-entry branch structure routes somewhere: a
non-directory entry that is skipped or carries a recognized extension. -/
def relevant_entry (validExts : List (List Char)) (p : List Char) : Bool :=
  !isDirEntry p &&
    (should_skip_file p || validExts.contains (lowerP (path_suffix p)))

/-- Python whitespace characters removed by `str.strip()`. -/
def isPySpace (c : Char) : Bool :=
  c = ' ' || c = '\t' || c = '\n' || c = '\r' || c = Char.ofNat 11 || c = Char.ofNat 12

/-- Python `s.strip()`. -/
def pyStrip (s : List Char) : List Char :=
  ((s.dropWhile isPySpace).reverse.dropWhile isPySpace).reverse

/-- The markdown code-fence marker. -/
def fenceMark : List Char := strL "```"

/-- Python `s.split('\n')`, which keeps empty pieces and always returns at
least one piece. -/
def splitNl : List Char → List (List Char)
  | [] => [[]]
  | c :: rest =>
    if c = '\n' then [] :: splitNl rest
    else
      match splitNl rest with
      | [] => [[c]]
      | l :: ls => (c :: l) :: ls

/-- Python `'\n'.join(lines)`. -/
def joinNl (ls : List (List Char)) : List Char :=
  (ls.intersperse ['\n']).flatten

/-- The markdown-fence cleanup applied to a stripped response inside
`_convert_single_file`; `none` models the `IndexError` raised by
`lines[-1]` when the fence removal leaves no lines. -/
def cleanup_response (t : List Char) : Option (List Char) :=
  if List.isPrefixOf fenceMark t then
    let lines0 := splitNl t
    let lines1 :=
      match lines0 with
      | [] => []
      | l0 :: rest => if List.isPrefixOf fenceMark l0 then rest else lines0
    match lines1.getLast? with
    | none => none
    | some last =>
      let lines2 := if pyStrip last = fenceMark then lines1.dropLast else lines1
      some (joinNl lines2)
  else some t

/-- Handling of one capability response inside the `try` block: a `None` or
empty response raises (`none`), otherwise the text is stripped and
fence-cleaned. -/
def process_response (text : List Char) : Option (List Char) :=
  if text.isEmpty then none else cleanup_response (pyStrip text)

/-- Outcome of one invocation of the transformation capability: a transport
failure (any exception from the API call), or a response text. -/
inductive AttemptResult where
  | failure
  | response (text : List Char)
deriving DecidableEq

/-- Value produced by one loop iteration of `_convert_single_file`:
`some code` when the attempt returns converted text, `none` when the
attempt lands in the `except` handler. -/
def attempt_of (a : AttemptResult) : Option (List Char) :=
  match a with
  | AttemptResult.failure => none
  | AttemptResult.response t => process_response t

/-- `CodeConverter._get_error_comment`: the three platforms share the `//`
comment style, anything else falls back to `#`. -/
def get_error_comment (msg : List Char) (tp : List Char) : List Char :=
  if tp = strL "android_java" ∨ tp = strL "android_kotlin" ∨ tp = strL "ios_swift" then
    strL "// CONVERSION ERROR: " ++ msg
  else
    strL "# CONVERSION ERROR: " ++ msg

/-- File extension as computed in the converter:
`filename.split('.')[-1].lower() if '.' in filename else ''`. -/
def ext_of_split (fname : List Char) : List Char :=
  if fname.contains '.' then
    lowerP ((fname.reverse.takeWhile (fun c => c ≠ '.')).reverse)
  else []

/-- `CodeConverter._get_conversion_guidance`, with the four static guidance
texts of the source. -/
def get_conversion_guidance (sp tp fname : List Char) : List Char :=
  if sp = strL "android_java" ∧ tp = strL "ios_swift" then
    if ext_of_split fname = strL "xml" then
      strL "/*\n * CONVERSION NOTES FOR ANDROID XML TO iOS SWIFT:\n * - Convert LinearLayout to VStack/HStack in SwiftUI\n * - Convert TextView to Text() in SwiftUI\n * - Convert Button to Button() in SwiftUI\n * - Convert EditText to TextField() in SwiftUI\n * - Replace android:layout_width/height with SwiftUI modifiers\n * - Convert android:onClick to SwiftUI actions\n */"
    else
      strL "/*\n * CONVERSION NOTES FOR ANDROID JAVA TO iOS SWIFT:\n * - Convert classes to Swift classes/structs\n * - Replace findViewById with @IBOutlet or SwiftUI @State\n * - Convert setOnClickListener to SwiftUI actions\n * - Replace Intent with segues or NavigationView\n * - Convert AsyncTask to async/await or combine\n * - Replace SharedPreferences with UserDefaults\n */"
  else if sp = strL "android_kotlin" ∧ tp = strL "ios_swift" then
    strL "/*\n * CONVERSION NOTES FOR ANDROID KOTLIN TO iOS SWIFT:\n * - Convert data classes to Swift structs\n * - Replace lateinit var with Swift optionals or lazy properties\n * - Convert coroutines to async/await\n * - Replace Kotlin extensions with Swift extensions\n * - Convert when expressions to switch statements\n */"
  else
    strL "/*\n * CONVERSION NOTES FOR " ++ upperP sp ++ strL " TO " ++ upperP tp ++
      strL ":\n * - Review platform-specific APIs and frameworks\n * - Update " ++
      strL "import statements and dependencies\n * - Adapt UI components to target platform conventions\n * - Adjust navigation and lifecycle patterns\n */"

/-- The failure message interpolated inside `_fallback_conversion`. -/
def ai_unavailable_msg (sp : List Char) : List Char :=
  strL "AI service temporarily unavailable. This is the original " ++ sp ++
    strL " code with basic conversion notes."

/-- `CodeConverter._fallback_conversion`: failure header, static guidance,
manual-conversion banner, then the original source text. -/
def fallback_conversion (source_code sp tp fname : List Char) : List Char :=
  get_error_comment (ai_unavailable_msg sp) tp ++
    (strL "\n\n" ++ get_conversion_guidance sp tp fname ++
      strL "\n\n/*\n * ORIGINAL " ++ upperP sp ++
      strL " CODE:\n * To complete the conversion:\n * 1. Review the conversion notes above\n * 2. Apply platform-specific changes manually\n * 3. Test and adjust as needed\n */\n\n") ++
    source_code

/-- Observable outcome of `_convert_single_file`: the returned text, whether
the local fallback produced it, how many capability invocations were made,
and the sequence of backoff sleeps in time-units. -/
structure ConvOutcome where
  result : List Char
  usedFallback : Bool
  attempts : Nat
  sleeps : List Nat
deriving DecidableEq

/-- The retry loop of `_convert_single_file` (`for attempt in
range(max_retries)`), with the remaining attempt budget as fuel: a
successful attempt returns at once; a failed attempt sleeps the current
delay and doubles it, except on the final attempt, which degrades to the
fallback conversion. -/
def run_attempts (cap : Nat → AttemptResult) (src sp tp fname : List Char) :
    Nat → Nat → Nat → List Nat → ConvOutcome
  | 0, idx, _, sleeps => ⟨fallback_conversion src sp tp fname, true, idx, sleeps⟩
  | fuel + 1, idx, delay, sleeps =>
    match attempt_of (cap idx) with
    | some code => ⟨code, false, idx + 1, sleeps⟩
    | none =>
      match fuel with
      | 0 => ⟨fallback_conversion src sp tp fname, true, idx + 1, sleeps⟩
      | _ + 1 =>
        run_attempts cap src sp tp fname fuel (idx + 1) (delay * 2) (sleeps ++ [delay])

/-- `CodeConverter._convert_single_file`: at most 3 attempts, initial
backoff delay 2. -/
def convert_single_file (cap : Nat → AttemptResult) (src sp tp fname : List Char) :
    ConvOutcome :=
  run_attempts cap src sp tp fname 3 0 2 []

/-- `CodeConverter.__init__` extension map, looked up with
`extension_map.get(target_platform, ext)`. -/
def extension_map (tp : List Char) : Option (List Char) :=
  if tp = strL "android_java" then some (strL ".java")
  else if tp = strL "android_kotlin" then some (strL ".kt")
  else if tp = strL "ios_swift" then some (strL ".swift")
  else none

/-- `CodeConverter._get_converted_filename`: `os.path.splitext` root plus
the target platform's canonical extension (the original extension when the
platform is unknown). -/
def get_converted_filename (orig : List Char) (tp : List Char) : List Char :=
  let parts := splitext orig
  parts.1 ++ (extension_map tp).getD parts.2

/-- Whether the transformation capability or the local fallback produced a
result; mirrors the spec's `ConversionResult.status`, determined by which
branch of `_convert_single_file` returned. -/
inductive ConvStatus where
  | success
  | fallback
deriving DecidableEq

/-- One element of the list returned by `convert_files`, enriched with the
branch that produced it. -/
structure ConvResult where
  filename : List Char
  content : List Char
  status : ConvStatus
deriving DecidableEq

/-- `CodeConverter.convert_files` over `(stagingPath, relativePath)` pairs,
with a deterministic read oracle for staged files and a per-file capability
oracle.  A failing read lands in the per-entry `except` handler, whose own
re-read of the same file fails again and propagates, aborting the batch
(`Except.error`). -/
def convert_files (cap : List Char → Nat → AttemptResult)
    (readF : List Char → Option (List Char)) (sp tp : List Char) :
    List (List Char × List Char) → Except Unit (List ConvResult)
  | [] => Except.ok []
  | e :: rest =>
    match readF e.1 with
    | none => Except.error ()
    | some src =>
      let out := convert_single_file (cap e.2) src sp tp e.2
      let r : ConvResult :=
        ⟨get_converted_filename e.2 tp, out.result,
          if out.usedFallback then ConvStatus.fallback else ConvStatus.success⟩
      match convert_files cap readF sp tp rest with
      | Except.error u => Except.error u
      | Except.ok rs => Except.ok (r :: rs)

/-- A secure upload name routed to ZIP extraction:
`secure_name.lower().endswith('.zip')`. -/
def is_zip_name (name : List Char) : Bool :=
  List.isSuffixOf (strL ".zip") (lowerP name)

/-- `is_multiple_files = len(valid_files) > 1` in `app.convert_code`. -/
def is_multiple_files (validFiles : List (List Char)) : Bool :=
  decide (validFiles.length > 1)

/-- Output naming `converted_<source>_to_<target>_<base>`. -/
def output_name (sp tp base : List Char) : List Char :=
  strL "converted_" ++ sp ++ strL "_to_" ++ tp ++ strL "_" ++ base

/-- The artifact written at the end of `app.convert_code`: a standalone
file, or a ZIP holding converted entries plus preserved assets. -/
inductive Artifact where
  | single (filename : List Char) (content : List Char)
  | zipArchive (filename : List Char) (entries : List (List Char × List Char))
      (preserved : List (List Char × List Char))
deriving DecidableEq

/-- The save step of `app.convert_code` (lines picking single-file versus
ZIP output): a single-file artifact exactly when there is one converted
file and `is_multiple_files` is false, else `create_zip` over all converted
files plus every preserved file whose staged copy can be written. -/
def save_converted_files (converted : List (List Char × List Char))
    (preserve : List (List Char × List Char)) (validFiles : List (List Char))
    (sp tp last_name : List Char) (canWrite : List Char → Bool) : Artifact :=
  match converted, is_multiple_files validFiles with
  | [(fname, content)], false =>
    Artifact.single (output_name sp tp fname)
      (if content.isEmpty then strL "// Conversion failed - empty content" else content)
  | conv, _ =>
    Artifact.zipArchive (output_name sp tp last_name) conv
      (preserve.filter (fun e => canWrite e.1))

/-- Whether the saved artifact is a standalone file. -/
def artifact_is_single : Artifact → Bool
  | Artifact.single _ _ => true
  | _ => false

/-- The spec's notion of a request consisting of a single non-archive
input. -/
def single_non_archive_request (validFiles : List (List Char)) : Bool :=
  decide (validFiles.length = 1) && validFiles.all (fun n => !is_zip_name n)

/-- The skip patterns that are not folder patterns, i.e. those matched by
the suffix-or-substring branch of the pattern loop. -/
def non_folder_skip_patterns : List (List Char) :=
  skip_patterns.filter (fun q => !(List.isSuffixOf (strL "/") q))

/-- Replace every empty capability response by a transport failure. -/
def empty_as_failure (cap : Nat → AttemptResult) : Nat → AttemptResult := fun i =>
  match cap i with
  | AttemptResult.response t =>
    if t.isEmpty then AttemptResult.failure else AttemptResult.response t
  | a => a

/-- A non-directory entry is routed nowhere exactly when it is neither
skipped nor carries a recognized extension. -/
lemma aux_classify_relevant (validExts : List (List Char))
    (outcome : List Char → EntryOutcome) (p : List Char) :
    classify_entry validExts outcome p = none ↔ relevant_entry validExts p = false := by
  unfold classify_entry relevant_entry
  by_cases hd : isDirEntry p = true
  · simp [hd]
  · simp only [Bool.not_eq_true] at hd
    by_cases hs : should_skip_file p = true
    · simp [hd, hs]
    · simp only [Bool.not_eq_true] at hs
      by_cases he : validExts.contains (lowerP (path_suffix p)) = true
      · have he' : lowerP (path_suffix p) ∈ validExts := by simpa using he
        cases ho : outcome p <;> simp [hd, hs, he, he', ho]
      · simp only [Bool.not_eq_true] at he
        have he' : lowerP (path_suffix p) ∉ validExts := by simpa using he
        simp [hd, hs, he, he']

/-- Each archive entry contributes one unit to the code, skipped or error
list exactly when it is a routed entry. -/
lemma aux_classification_count (validExts : List (List Char))
    (outcome : List Char → EntryOutcome) :
    ∀ entries : List (List Char),
      (entries.filter
          (fun q => decide (classify_entry validExts outcome q = some ClassTag.codeFile))).length +
        (entries.filter
          (fun q => decide (classify_entry validExts outcome q = some ClassTag.skipFile))).length +
        (entries.filterMap (err_entry validExts outcome)).length =
      (entries.filter (relevant_entry validExts)).length
  | [] => rfl
  | p :: rest => by
    have ih := aux_classification_count validExts outcome rest
    simp only [List.filter_cons, List.filterMap_cons]
    rcases hc : classify_entry validExts outcome p with _ | tag
    · have hrel : relevant_entry validExts p = false :=
        (aux_classify_relevant validExts outcome p).mp hc
      have herr : err_entry validExts outcome p = none := by
        unfold err_entry
        rw [hc]
      simp [hc, hrel, herr, ih]
    · have hrel : relevant_entry validExts p = true := by
        cases h : relevant_entry validExts p
        · exact absurd ((aux_classify_relevant validExts outcome p).mpr h) (by simp [hc])
        · rfl
      cases tag with
      | codeFile =>
        have herr : err_entry validExts outcome p = none := by
          unfold err_entry
          rw [hc]
        simp [hc, hrel, herr]
        omega
      | skipFile =>
        have herr : err_entry validExts outcome p = none := by
          unfold err_entry
          rw [hc]
        simp [hc, hrel, herr]
        omega
      | errFile t =>
        have herr : err_entry validExts outcome p = some (p ++ t) := by
          unfold err_entry
          rw [hc]
        simp [hc, hrel, herr]
        omega

/-- Inversion of a successful `extract_code_files` call: the platform was
supported, the container was valid, and the three lists are the routed
entries. -/
lemma aux_extract_ok (zipOk : Bool) (entries : List (List Char))
    (platform : List Char) (outcome : List Char → EntryOutcome) (r : ExtractResult)
    (h : extract_code_files zipOk entries platform outcome = Except.ok r) :
    (code_extensions platform).isEmpty = false ∧ zipOk = true ∧
      r.code = entries.filter
        (fun p => decide (classify_entry (code_extensions platform) outcome p
          = some ClassTag.codeFile)) ∧
      r.skipped = entries.filter
        (fun p => decide (classify_entry (code_extensions platform) outcome p
          = some ClassTag.skipFile)) ∧
      r.errors = entries.filterMap (err_entry (code_extensions platform) outcome) := by
  unfold extract_code_files at h
  by_cases h1 : (code_extensions platform).isEmpty = true
  · simp [h1] at h
  · by_cases h2 : zipOk = true
    · simp only [Bool.not_eq_true] at h1
      simp [h1, h2] at h
      subst h
      exact ⟨h1, h2, rfl, rfl, rfl⟩
    · simp only [Bool.not_eq_true] at h1 h2
      simp [h1, h2] at h

/-- A skipped non-directory entry of a successfully classified archive is
in the skipped list and not in the code list. -/
lemma aux_skip_in_result (p : List Char) (hs : should_skip_file p = true)
    (entries : List (List Char)) (platform : List Char)
    (outcome : List Char → EntryOutcome) (r : ExtractResult)
    (hok : extract_code_files true entries platform outcome = Except.ok r)
    (hmem : p ∈ entries) (hd : isDirEntry p = false) :
    p ∈ r.skipped ∧ p ∉ r.code := by
  obtain ⟨-, -, hcode, hskip, -⟩ :=
    aux_extract_ok true entries platform outcome r hok
  have hcl : classify_entry (code_extensions platform) outcome p
      = some ClassTag.skipFile := by
    unfold classify_entry
    simp [hd, hs]
  constructor
  · rw [hskip]
    exact List.mem_filter.mpr ⟨hmem, by simp [hcl]⟩
  · rw [hcode]
    intro hin
    have := (List.mem_filter.mp hin).2
    simp [hcl] at this

/-- C1 fails as stated: in the archive `["foo.xyz"]` under platform
`android_java`, the single non-directory entry is neither skipped nor
recognized, so it lands in none of the three lists and the counts do not
add up to the number of non-directory entries. -/
theorem c1_counterexample :
    ∃ r, extract_code_files true [strL "foo.xyz"] (strL "android_java")
        (fun _ => EntryOutcome.extracted) = Except.ok r ∧
      r.code.length + r.skipped.length + r.errors.length ≠
        (List.filter (fun p => !isDirEntry p) [strL "foo.xyz"]).length :=
  ⟨⟨[], [], []⟩, rfl, by decide⟩

/-- C1 (amended): for every successfully classified archive, the number of
code entries plus skipped paths plus error paths equals the number of
non-directory entries that are skipped or carry a platform-recognized
extension, and each such entry lands in exactly one of the three lists;
non-directory entries that are neither skipped nor recognized land in none
of them. -/
theorem c1_classification_partition (zipOk : Bool) (entries : List (List Char))
    (platform : List Char) (outcome : List Char → EntryOutcome) (r : ExtractResult)
    (hok : extract_code_files zipOk entries platform outcome = Except.ok r) :
    (r.code.length + r.skipped.length + r.errors.length =
      (entries.filter (relevant_entry (code_extensions platform))).length) ∧
    (∀ p ∈ entries, isDirEntry p = false →
      relevant_entry (code_extensions platform) p = true →
        (p ∈ r.code ∧ p ∉ r.skipped ∧
            err_entry (code_extensions platform) outcome p = none) ∨
        (p ∈ r.skipped ∧ p ∉ r.code ∧
            err_entry (code_extensions platform) outcome p = none) ∨
        ((∃ s, err_entry (code_extensions platform) outcome p = some s ∧ s ∈ r.errors) ∧
            p ∉ r.code ∧ p ∉ r.skipped)) ∧
    (∀ p ∈ entries, relevant_entry (code_extensions platform) p = false →
      p ∉ r.code ∧ p ∉ r.skipped ∧
        err_entry (code_extensions platform) outcome p = none) := by
  obtain ⟨-, -, hcode, hskip, herrs⟩ :=
    aux_extract_ok zipOk entries platform outcome r hok
  refine ⟨?_, ?_, ?_⟩
  · rw [hcode, hskip, herrs]
    exact aux_classification_count (code_extensions platform) outcome entries
  · intro p hmem _ hrel
    rcases hc : classify_entry (code_extensions platform) outcome p with _ | tag
    · exact absurd ((aux_classify_relevant _ outcome p).mp hc) (by simp [hrel])
    · cases tag with
      | codeFile =>
        refine Or.inl ⟨?_, ?_, ?_⟩
        · rw [hcode]
          exact List.mem_filter.mpr ⟨hmem, by simp [hc]⟩
        · rw [hskip]
          intro hin
          have := (List.mem_filter.mp hin).2
          simp [hc] at this
        · unfold err_entry
          rw [hc]
      | skipFile =>
        refine Or.inr (Or.inl ⟨?_, ?_, ?_⟩)
        · rw [hskip]
          exact List.mem_filter.mpr ⟨hmem, by simp [hc]⟩
        · rw [hcode]
          intro hin
          have := (List.mem_filter.mp hin).2
          simp [hc] at this
        · unfold err_entry
          rw [hc]
      | errFile t =>
        have herr : err_entry (code_extensions platform) outcome p = some (p ++ t) := by
          unfold err_entry
          rw [hc]
        refine Or.inr (Or.inr ⟨⟨p ++ t, herr, ?_⟩, ?_, ?_⟩)
        · rw [herrs]
          exact List.mem_filterMap.mpr ⟨p, hmem, herr⟩
        · rw [hcode]
          intro hin
          have := (List.mem_filter.mp hin).2
          simp [hc] at this
        · rw [hskip]
          intro hin
          have := (List.mem_filter.mp hin).2
          simp [hc] at this
  · intro p _ hrel
    have hc : classify_entry (code_extensions platform) outcome p = none :=
      (aux_classify_relevant _ outcome p).mpr hrel
    refine ⟨?_, ?_, ?_⟩
    · rw [hcode]
      intro hin
      have := (List.mem_filter.mp hin).2
      simp [hc] at this
    · rw [hskip]
      intro hin
      have := (List.mem_filter.mp hin).2
      simp [hc] at this
    · unfold err_entry
      rw [hc]

/-- Witness for C1 (amended) at a concrete archive holding one code file,
one skipped image and one unrouted entry. -/
theorem c1_classification_partition_witness :
    (⟨[strL "MainActivity.java"], [strL "icon.png"], []⟩ : ExtractResult).code.length +
      (⟨[strL "MainActivity.java"], [strL "icon.png"], []⟩ : ExtractResult).skipped.length +
      (⟨[strL "MainActivity.java"], [strL "icon.png"], []⟩ : ExtractResult).errors.length =
    (List.filter (relevant_entry (code_extensions (strL "android_java")))
      [strL "MainActivity.java", strL "icon.png", strL "foo.xyz"]).length :=
  (c1_classification_partition true
    [strL "MainActivity.java", strL "icon.png", strL "foo.xyz"]
    (strL "android_java") (fun _ => EntryOutcome.extracted)
    ⟨[strL "MainActivity.java"], [strL "icon.png"], []⟩ rfl).1

/-- C2 fails on the code: `icon.png` ends in the preserve suffix `.png` and
its staging succeeds, yet `_extract_preserve_files` guards preservation
with `not _should_skip_file`, and `.png` is also a skip pattern, so the
entry is never added to the preserve list. -/
theorem c2_icon_png_never_preserved :
    (strL ".png") ∈ preserve_files ∧
    should_preserve (strL "icon.png") = true ∧
    should_skip_file (strL "icon.png") = true ∧
    preserve_decision (strL "icon.png") = false ∧
    extract_preserve_files true [strL "icon.png"] (fun _ => EntryOutcome.extracted) = [] :=
  ⟨by decide, by decide, by decide, by decide, rfl⟩

/-- A path whose slash count exceeds 6 satisfies the skip predicate. -/
lemma aux_depth_skip (p : List Char) (h : countSlash p > 6) :
    should_skip_file p = true := by
  unfold should_skip_file
  simp [h]

/-- A non-folder skip pattern or suspicious pattern occurring as a
substring of the lowercased path makes the skip predicate true. -/
lemma aux_substring_skip (p pat : List Char)
    (hpat : pat ∈ non_folder_skip_patterns ∨ pat ∈ suspicious_patterns)
    (hsub : containsSub pat (lowerP p) = true) :
    should_skip_file p = true := by
  unfold should_skip_file
  rcases hpat with hm | hm
  · obtain ⟨hq, hnf⟩ := List.mem_filter.mp hm
    have hmatch : matchSkipPattern (lowerP p) pat = true := by
      unfold matchSkipPattern
      rw [if_neg]
      · simp [hsub]
      · simp only [Bool.not_eq_true'] at hnf
        simp [hnf]
    have : skip_patterns.any (matchSkipPattern (lowerP p)) = true :=
      List.any_eq_true.mpr ⟨pat, hq, hmatch⟩
    simp [this]
  · have : suspicious_patterns.any (fun q => containsSub q (lowerP p)) = true :=
      List.any_eq_true.mpr ⟨pat, hm, hsub⟩
    simp [this]

/-- C8: every path more than 6 segments deep satisfies the skip predicate,
and in any successful classification such a non-directory entry is placed
in the skipped list and excluded from the code list, regardless of its
extension. -/
theorem c8_deep_paths_skipped (p : List Char) (hdepth : countSlash p > 6) :
    should_skip_file p = true ∧
    ∀ entries platform outcome r,
      extract_code_files true entries platform outcome = Except.ok r →
      p ∈ entries → isDirEntry p = false → p ∈ r.skipped ∧ p ∉ r.code := by
  refine ⟨aux_depth_skip p hdepth, ?_⟩
  intro entries platform outcome r hok hmem hd
  exact aux_skip_in_result p (aux_depth_skip p hdepth) entries platform outcome r hok hmem hd

/-- Witness for C8 on a path with 7 slashes, classified inside a concrete
archive. -/
theorem c8_deep_paths_skipped_witness :
    should_skip_file (strL "a/b/c/d/e/f/g/Main.java") = true ∧
    (strL "a/b/c/d/e/f/g/Main.java") ∈
      (⟨[], [strL "a/b/c/d/e/f/g/Main.java"], []⟩ : ExtractResult).skipped ∧
    (strL "a/b/c/d/e/f/g/Main.java") ∉
      (⟨[], [strL "a/b/c/d/e/f/g/Main.java"], []⟩ : ExtractResult).code := by
  have h := c8_deep_paths_skipped (strL "a/b/c/d/e/f/g/Main.java") (by decide)
  have h2 := h.2 [strL "a/b/c/d/e/f/g/Main.java"] (strL "android_java")
    (fun _ => EntryOutcome.extracted)
    ⟨[], [strL "a/b/c/d/e/f/g/Main.java"], []⟩ rfl (by decide) (by decide)
  exact ⟨h.1, h2.1, h2.2⟩

/-- C9: every non-folder skip-denylist pattern and every suspicious pattern
is matched as a substring anywhere in the lowercased path; any
non-directory entry containing such a substring is skipped and never
extracted as code. -/
theorem c9_substring_patterns_skip (p pat : List Char)
    (hpat : pat ∈ non_folder_skip_patterns ∨ pat ∈ suspicious_patterns)
    (hsub : containsSub pat (lowerP p) = true) :
    should_skip_file p = true ∧
    ∀ entries platform outcome r,
      extract_code_files true entries platform outcome = Except.ok r →
      p ∈ entries → isDirEntry p = false → p ∈ r.skipped ∧ p ∉ r.code := by
  refine ⟨aux_substring_skip p pat hpat hsub, ?_⟩
  intro entries platform outcome r hok hmem hd
  exact aux_skip_in_result p (aux_substring_skip p pat hpat hsub)
    entries platform outcome r hok hmem hd

/-- Witness for C9: `My.old.java` contains the suspicious substring `.o`
and is skipped even though it carries the `.java` extension. -/
theorem c9_substring_patterns_skip_witness :
    should_skip_file (strL "My.old.java") = true ∧
    (strL "My.old.java") ∈ (⟨[], [strL "My.old.java"], []⟩ : ExtractResult).skipped ∧
    (strL "My.old.java") ∉ (⟨[], [strL "My.old.java"], []⟩ : ExtractResult).code := by
  have h := c9_substring_patterns_skip (strL "My.old.java") (strL ".o")
    (Or.inr (by decide)) (by decide)
  have h2 := h.2 [strL "My.old.java"] (strL "android_java")
    (fun _ => EntryOutcome.extracted) ⟨[], [strL "My.old.java"], []⟩ rfl
    (by decide) (by decide)
  exact ⟨h.1, h2.1, h2.2⟩

/-- C7: for a supported platform, a corrupt container makes the whole
classification call fail with the invalid-ZIP error and no partial result,
while a valid container always classifies successfully, with any per-entry
extraction failure merely recorded in the error list. -/
theorem c7_corrupt_vs_per_entry_failures (entries : List (List Char))
    (platform : List Char) (outcome : List Char → EntryOutcome)
    (hplat : (code_extensions platform).isEmpty = false) :
    extract_project_files false entries platform outcome =
      Except.error (strL "Invalid ZIP file") ∧
    (extract_project_files true entries platform outcome).isOk = true ∧
    (∀ p ∈ entries, isDirEntry p = false → should_skip_file p = false →
      (code_extensions platform).contains (lowerP (path_suffix p)) = true →
      outcome p = EntryOutcome.failed →
      ∀ r pres, extract_project_files true entries platform outcome =
          Except.ok (r, pres) →
        (p ++ failTag) ∈ r.errors) := by
  have hbad : extract_code_files false entries platform outcome =
      Except.error (strL "Invalid ZIP file") := by
    unfold extract_code_files
    simp [hplat]
  have hgood : extract_code_files true entries platform outcome =
      Except.ok
        { code := entries.filter
            (fun p => decide (classify_entry (code_extensions platform) outcome p
              = some ClassTag.codeFile)),
          skipped := entries.filter
            (fun p => decide (classify_entry (code_extensions platform) outcome p
              = some ClassTag.skipFile)),
          errors := entries.filterMap (err_entry (code_extensions platform) outcome) } := by
    unfold extract_code_files
    simp [hplat]
  refine ⟨?_, ?_, ?_⟩
  · unfold extract_project_files
    rw [hbad]
  · unfold extract_project_files
    rw [hgood]
    rfl
  · intro p hmem hd hs he ho r pres hok
    have hok' : extract_code_files true entries platform outcome = Except.ok r := by
      unfold extract_project_files at hok
      rcases hcase : extract_code_files true entries platform outcome with e | r'
      · rw [hcase] at hok
        simp at hok
      · rw [hcase] at hok
        simp at hok
        rw [hok.1]
    obtain ⟨-, -, -, -, herrs⟩ := aux_extract_ok true entries platform outcome r hok'
    have he' : lowerP (path_suffix p) ∈ code_extensions platform := by
      simpa using he
    have hcl : classify_entry (code_extensions platform) outcome p =
        some (ClassTag.errFile failTag) := by
      unfold classify_entry
      simp [hd, hs, he', ho]
    have herr : err_entry (code_extensions platform) outcome p = some (p ++ failTag) := by
      unfold err_entry
      rw [hcl]
    rw [herrs]
    exact List.mem_filterMap.mpr ⟨p, hmem, herr⟩

/-- Witness for C7: a two-entry archive where one entry's staging raises;
the corrupt call errors and the per-entry failure is recorded. -/
theorem c7_corrupt_vs_per_entry_failures_witness :
    extract_project_files false [strL "Main.java", strL "Util.java"]
        (strL "android_java")
        (fun q => if q = strL "Util.java" then EntryOutcome.failed
          else EntryOutcome.extracted) =
      Except.error (strL "Invalid ZIP file") ∧
    (strL "Util.java" ++ failTag) ∈
      (⟨[strL "Main.java"], [], [strL "Util.java" ++ failTag]⟩ : ExtractResult).errors := by
  have h := c7_corrupt_vs_per_entry_failures [strL "Main.java", strL "Util.java"]
    (strL "android_java")
    (fun q => if q = strL "Util.java" then EntryOutcome.failed
      else EntryOutcome.extracted) (by decide)
  refine ⟨h.1, ?_⟩
  exact h.2.2 (strL "Util.java") (by decide) (by decide) (by decide) (by decide)
    (by decide) ⟨[strL "Main.java"], [], [strL "Util.java" ++ failTag]⟩ [] rfl

/-- Packing a valid scalar value below the surrogate range round-trips
through `Char.ofNat`. -/
lemma aux_toNat_ofNat (n : Nat) (h : n < 55296) : (Char.ofNat n).toNat = n := by
  unfold Char.ofNat
  rw [dif_pos (Or.inl h)]
  rfl

/-- ASCII lowercasing is idempotent. -/
lemma aux_lowerChar_idem (c : Char) : lowerChar (lowerChar c) = lowerChar c := by
  unfold lowerChar
  by_cases h : 65 ≤ c.toNat ∧ c.toNat ≤ 90
  · rw [if_pos h]
    have ht : (Char.ofNat (c.toNat + 32)).toNat = c.toNat + 32 :=
      aux_toNat_ofNat _ (by omega)
    rw [if_neg]
    rw [ht]
    omega
  · rw [if_neg h, if_neg h]

/-- ASCII lowercasing never produces or destroys a slash. -/
lemma aux_lowerChar_slash (c : Char) : (lowerChar c = '/') ↔ (c = '/') := by
  unfold lowerChar
  by_cases h : 65 ≤ c.toNat ∧ c.toNat ≤ 90
  · rw [if_pos h]
    constructor
    · intro hc
      exfalso
      have hn := congrArg Char.toNat hc
      rw [aux_toNat_ofNat _ (by omega)] at hn
      have h47 : Char.toNat '/' = 47 := rfl
      omega
    · intro hc
      exfalso
      rw [hc] at h
      exact absurd h.1 (by decide)
  · rw [if_neg h]

/-- Lowercasing a path twice is the same as lowercasing it once. -/
lemma aux_lowerP_idem (p : List Char) : lowerP (lowerP p) = lowerP p := by
  unfold lowerP
  rw [List.map_map]
  exact List.map_congr_left (fun a _ => aux_lowerChar_idem a)

/-- The slash count of a path is invariant under lowercasing. -/
lemma aux_countSlash_lowerP (p : List Char) : countSlash (lowerP p) = countSlash p := by
  unfold countSlash lowerP
  rw [List.countP_map]
  apply List.countP_congr
  intro a _
  simp only [Function.comp_apply]
  simp [aux_lowerChar_slash]

/-- C10: skip and preserve classification are case-insensitive: the skip
predicate, the preserve flag and the combined preserve condition all agree
on a path and on its lowercased form. -/
theorem c10_case_insensitive_classification (p : List Char) :
    should_skip_file (lowerP p) = should_skip_file p ∧
    should_preserve (lowerP p) = should_preserve p ∧
    preserve_decision (lowerP p) = preserve_decision p := by
  have hs : should_skip_file (lowerP p) = should_skip_file p := by
    unfold should_skip_file
    rw [aux_lowerP_idem, aux_countSlash_lowerP]
  have hp : should_preserve (lowerP p) = should_preserve p := by
    unfold should_preserve
    rw [aux_lowerP_idem]
  refine ⟨hs, hp, ?_⟩
  unfold preserve_decision
  rw [hs, hp]

/-- C4 fails as stated: a request consisting of one ZIP upload that yields
exactly one conversion result and one preserve entry (two combined members)
still produces a single-file artifact, although the input was an archive,
and the preserve entry is dropped. -/
theorem c4_counterexample :
    artifact_is_single
      (save_converted_files [(strL "Main.swift", strL "let a = 1")]
        [(strL "/tmp/m", strL "AndroidManifest.xml")] [strL "proj.zip"]
        (strL "android_java") (strL "ios_swift") (strL "proj.zip")
        (fun _ => true)) = true ∧
    single_non_archive_request [strL "proj.zip"] = false ∧
    ([(strL "Main.swift", strL "let a = 1")].length +
      [(strL "/tmp/m", strL "AndroidManifest.xml")].length ≥ 2) :=
  ⟨rfl, by decide, by decide⟩

/-- C4 (amended): the save step produces a single-file artifact exactly
when there is exactly one conversion result and at most one valid uploaded
file, whether or not that file was an archive; in every other case it
produces an archive holding every conversion result plus every preserve
entry whose staged copy is writable (all of them when every write
succeeds). -/
theorem c4_assembly_dispatch (converted preserve : List (List Char × List Char))
    (validFiles : List (List Char)) (sp tp last_name : List Char)
    (canWrite : List Char → Bool) :
    (artifact_is_single
        (save_converted_files converted preserve validFiles sp tp last_name canWrite) =
      (decide (converted.length = 1) && !is_multiple_files validFiles)) ∧
    (converted.length ≠ 1 ∨ is_multiple_files validFiles = true →
      save_converted_files converted preserve validFiles sp tp last_name canWrite =
        Artifact.zipArchive (output_name sp tp last_name) converted
          (preserve.filter (fun e => canWrite e.1))) ∧
    ((∀ e ∈ preserve, canWrite e.1 = true) →
      preserve.filter (fun e => canWrite e.1) = preserve) := by
  refine ⟨?_, ?_, ?_⟩
  · rcases converted with _ | ⟨⟨fn, ct⟩, rest⟩
    · cases hm : is_multiple_files validFiles <;>
        simp [save_converted_files, artifact_is_single, hm]
    · rcases rest with _ | ⟨e2, rest2⟩
      · cases hm : is_multiple_files validFiles <;>
          simp [save_converted_files, artifact_is_single, hm]
      · cases hm : is_multiple_files validFiles <;>
          simp [save_converted_files, artifact_is_single, hm]
  · intro hcase
    rcases converted with _ | ⟨⟨fn, ct⟩, rest⟩
    · cases hm : is_multiple_files validFiles <;>
        simp [save_converted_files]
    · rcases rest with _ | ⟨e2, rest2⟩
      · rcases hcase with hlen | hm
        · simp at hlen
        · simp [save_converted_files, hm]
      · cases hm : is_multiple_files validFiles <;>
          simp [save_converted_files, hm]
  · intro hall
    exact List.filter_eq_self.mpr hall

/-- Witness for C4 (amended): two conversion results from one uploaded ZIP
are archived together with the writable preserve entry. -/
theorem c4_assembly_dispatch_witness :
    save_converted_files
        [(strL "Main.swift", strL "let a = 1"), (strL "Util.swift", strL "let b = 2")]
        [(strL "/tmp/m", strL "AndroidManifest.xml")] [strL "proj.zip"]
        (strL "android_java") (strL "ios_swift") (strL "proj.zip") (fun _ => true) =
      Artifact.zipArchive
        (output_name (strL "android_java") (strL "ios_swift") (strL "proj.zip"))
        [(strL "Main.swift", strL "let a = 1"), (strL "Util.swift", strL "let b = 2")]
        (List.filter (fun e => (fun _ => true) e.1)
          [(strL "/tmp/m", strL "AndroidManifest.xml")]) :=
  (c4_assembly_dispatch
    [(strL "Main.swift", strL "let a = 1"), (strL "Util.swift", strL "let b = 2")]
    [(strL "/tmp/m", strL "AndroidManifest.xml")] [strL "proj.zip"]
    (strL "android_java") (strL "ios_swift") (strL "proj.zip")
    (fun _ => true)).2.1 (Or.inl (by decide))

/-- Erasing empty responses into transport failures does not change what a
single attempt produces: an empty response already lands in the `except`
handler. -/
lemma aux_attempt_of_empty (cap : Nat → AttemptResult) (i : Nat) :
    attempt_of (empty_as_failure cap i) = attempt_of (cap i) := by
  unfold empty_as_failure
  rcases hcap : cap i with _ | t
  · rfl
  · by_cases he : t.isEmpty = true
    · simp [he, attempt_of, process_response]
    · simp [he, attempt_of]

/-- First attempt of the loop: success returns at once, failure leaves two
attempts with delay 4 and one sleep of 2 recorded. -/
lemma aux_step3 (cap : Nat → AttemptResult) (src sp tp fname : List Char) :
    convert_single_file cap src sp tp fname =
      match attempt_of (cap 0) with
      | some c => ⟨c, false, 1, []⟩
      | none => run_attempts cap src sp tp fname 2 1 4 [2] := rfl

/-- Second attempt of the loop. -/
lemma aux_step2 (cap : Nat → AttemptResult) (src sp tp fname : List Char) :
    run_attempts cap src sp tp fname 2 1 4 [2] =
      match attempt_of (cap 1) with
      | some c => ⟨c, false, 2, [2]⟩
      | none => run_attempts cap src sp tp fname 1 2 8 [2, 4] := rfl

/-- Third and final attempt of the loop: failure degrades to the fallback
conversion. -/
lemma aux_step1 (cap : Nat → AttemptResult) (src sp tp fname : List Char) :
    run_attempts cap src sp tp fname 1 2 8 [2, 4] =
      match attempt_of (cap 2) with
      | some c => ⟨c, false, 3, [2, 4]⟩
      | none => ⟨fallback_conversion src sp tp fname, true, 3, [2, 4]⟩ := rfl

/-- The value of the 3-attempt loop, attempt by attempt. -/
lemma aux_convert_single_eq (cap : Nat → AttemptResult) (src sp tp fname : List Char) :
    convert_single_file cap src sp tp fname =
      match attempt_of (cap 0) with
      | some c => ⟨c, false, 1, []⟩
      | none =>
        match attempt_of (cap 1) with
        | some c => ⟨c, false, 2, [2]⟩
        | none =>
          match attempt_of (cap 2) with
          | some c => ⟨c, false, 3, [2, 4]⟩
          | none => ⟨fallback_conversion src sp tp fname, true, 3, [2, 4]⟩ := by
  rw [aux_step3]
  rcases h0 : attempt_of (cap 0) with _ | c0
  · rw [aux_step2]
    rcases h1 : attempt_of (cap 1) with _ | c1
    · rw [aux_step1]
    · rfl
  · rfl

/-- When every attempt fails, the loop returns the fallback conversion
after 3 attempts and sleeps of 2 and 4 time-units. -/
lemma aux_all_fail_single (cap : Nat → AttemptResult) (src sp tp fname : List Char)
    (h : ∀ i, i < 3 → attempt_of (cap i) = none) :
    convert_single_file cap src sp tp fname =
      ⟨fallback_conversion src sp tp fname, true, 3, [2, 4]⟩ := by
  rw [aux_convert_single_eq]
  rw [h 0 (by norm_num), h 1 (by norm_num), h 2 (by norm_num)]

/-- The fallback text carries the original source as its tail and the
failure header as its head. -/
lemma aux_fallback_structure (src sp tp fname : List Char) :
    (∃ pre, fallback_conversion src sp tp fname = pre ++ src) ∧
    (∃ rest, fallback_conversion src sp tp fname =
      get_error_comment (ai_unavailable_msg sp) tp ++ rest) := by
  unfold fallback_conversion
  constructor
  · exact ⟨_, rfl⟩
  · exact ⟨_, List.append_assoc _ _ _⟩

/-- C5: the orchestrator makes at most 3 capability invocations per entry,
sleeps 2 then 4 time-units before the retries it performs, treats an empty
response exactly as a transport failure, and degrades to the fallback
result when every attempt fails. -/
theorem c5_bounded_retry_backoff_empty (cap : Nat → AttemptResult)
    (src sp tp fname : List Char) :
    (convert_single_file cap src sp tp fname).attempts ≤ 3 ∧
    (convert_single_file cap src sp tp fname).sleeps =
      List.take ((convert_single_file cap src sp tp fname).attempts - 1) [2, 4] ∧
    convert_single_file cap src sp tp fname =
      convert_single_file (empty_as_failure cap) src sp tp fname ∧
    ((∀ i, i < 3 → attempt_of (cap i) = none) →
      convert_single_file cap src sp tp fname =
        ⟨fallback_conversion src sp tp fname, true, 3, [2, 4]⟩) := by
  rcases h0 : attempt_of (cap 0) with _ | c0
  · rcases h1 : attempt_of (cap 1) with _ | c1
    · rcases h2 : attempt_of (cap 2) with _ | c2
      · have hv : convert_single_file cap src sp tp fname =
            ⟨fallback_conversion src sp tp fname, true, 3, [2, 4]⟩ := by
          rw [aux_convert_single_eq, h0, h1, h2]
        rw [hv]
        refine ⟨by norm_num, rfl, ?_, fun _ => rfl⟩
        rw [aux_convert_single_eq (empty_as_failure cap)]
        simp only [aux_attempt_of_empty]
        rw [h0, h1, h2]
      · have hv : convert_single_file cap src sp tp fname = ⟨c2, false, 3, [2, 4]⟩ := by
          rw [aux_convert_single_eq, h0, h1, h2]
        rw [hv]
        refine ⟨by norm_num, rfl, ?_, fun hall => ?_⟩
        · rw [aux_convert_single_eq (empty_as_failure cap)]
          simp only [aux_attempt_of_empty]
          rw [h0, h1, h2]
        · have hcontra := hall 2 (by norm_num)
          rw [h2] at hcontra
          simp at hcontra
    · have hv : convert_single_file cap src sp tp fname = ⟨c1, false, 2, [2]⟩ := by
        rw [aux_convert_single_eq, h0, h1]
      rw [hv]
      refine ⟨by norm_num, rfl, ?_, fun hall => ?_⟩
      · rw [aux_convert_single_eq (empty_as_failure cap)]
        simp only [aux_attempt_of_empty]
        rw [h0, h1]
      · have hcontra := hall 1 (by norm_num)
        rw [h1] at hcontra
        simp at hcontra
  · have hv : convert_single_file cap src sp tp fname = ⟨c0, false, 1, []⟩ := by
      rw [aux_convert_single_eq, h0]
    rw [hv]
    refine ⟨by norm_num, rfl, ?_, fun hall => ?_⟩
    · rw [aux_convert_single_eq (empty_as_failure cap)]
      simp only [aux_attempt_of_empty]
      rw [h0]
    · have hcontra := hall 0 (by norm_num)
      rw [h0] at hcontra
      simp at hcontra

/-- Witness for C5 with a capability that always fails in transport. -/
theorem c5_bounded_retry_backoff_empty_witness :
    convert_single_file (fun _ => AttemptResult.failure) (strL "class A")
        (strL "android_java") (strL "ios_swift") (strL "Main.java") =
      ⟨fallback_conversion (strL "class A") (strL "android_java") (strL "ios_swift")
        (strL "Main.java"), true, 3, [2, 4]⟩ :=
  (c5_bounded_retry_backoff_empty (fun _ => AttemptResult.failure) (strL "class A")
    (strL "android_java") (strL "ios_swift") (strL "Main.java")).2.2.2 (fun _ _ => rfl)

/-- For a supported target platform the remapped filename is the splitext
root of the relative path followed by the canonical extension. -/
lemma aux_get_converted_filename (orig tp ce : List Char)
    (hce : extension_map tp = some ce) :
    get_converted_filename orig tp = splitext_root orig ++ ce := by
  unfold get_converted_filename splitext_root
  rw [hce]
  rfl

/-- C3: with an always-failing transformation capability and readable
staged files, `convert_files` returns exactly one result per entry, in
input order, each of Fallback status with the fallback text, which carries
the original source after the failure header. -/
theorem c3_all_failures_yield_fallback_results
    (cap : List Char → Nat → AttemptResult)
    (readF : List Char → Option (List Char)) (sp tp : List Char)
    (entries : List (List Char × List Char))
    (hread : ∀ e ∈ entries, (readF e.1).isSome = true)
    (hcap : ∀ f i, attempt_of (cap f i) = none) :
    convert_files cap readF sp tp entries =
      Except.ok (entries.map (fun e =>
        ⟨get_converted_filename e.2 tp,
         fallback_conversion ((readF e.1).getD []) sp tp e.2,
         ConvStatus.fallback⟩)) ∧
    ∀ e ∈ entries,
      (∃ pre, fallback_conversion ((readF e.1).getD []) sp tp e.2 =
        pre ++ (readF e.1).getD []) ∧
      (∃ rest, fallback_conversion ((readF e.1).getD []) sp tp e.2 =
        get_error_comment (ai_unavailable_msg sp) tp ++ rest) := by
  have main : ∀ ents : List (List Char × List Char),
      (∀ e ∈ ents, (readF e.1).isSome = true) →
      convert_files cap readF sp tp ents =
        Except.ok (ents.map (fun e =>
          ⟨get_converted_filename e.2 tp,
           fallback_conversion ((readF e.1).getD []) sp tp e.2,
           ConvStatus.fallback⟩)) := by
    intro ents
    induction ents with
    | nil => intro _; rfl
    | cons e rest ih =>
      intro hr
      obtain ⟨src, hsrc⟩ := Option.isSome_iff_exists.mp (hr e (by simp))
      have hrest := ih (fun x hx => hr x (by simp [hx]))
      simp only [convert_files, hsrc]
      rw [aux_all_fail_single (cap e.2) src sp tp e.2 (fun i _ => hcap e.2 i), hrest]
      simp [hsrc]
  exact ⟨main entries hread,
    fun e _ => aux_fallback_structure ((readF e.1).getD []) sp tp e.2⟩

/-- Witness for C3 on a one-entry batch with a capability that always
fails. -/
theorem c3_all_failures_yield_fallback_results_witness :
    convert_files (fun _ _ => AttemptResult.failure) (fun _ => some (strL "class A"))
        (strL "android_java") (strL "ios_swift") [(strL "/staging/a.java", strL "a.java")] =
      Except.ok ([(strL "/staging/a.java", strL "a.java")].map (fun e =>
        ⟨get_converted_filename e.2 (strL "ios_swift"),
         fallback_conversion (((fun _ => some (strL "class A")) e.1).getD [])
           (strL "android_java") (strL "ios_swift") e.2,
         ConvStatus.fallback⟩)) :=
  (c3_all_failures_yield_fallback_results (fun _ _ => AttemptResult.failure)
    (fun _ => some (strL "class A")) (strL "android_java") (strL "ios_swift")
    [(strL "/staging/a.java", strL "a.java")] (by decide) (fun _ _ => rfl)).1

/-- C6: whenever `convert_files` returns a result list, the filenames are
exactly the input relative paths, in order, with their extension stripped
and replaced by the target platform's canonical extension. -/
theorem c6_output_filenames_remapped (cap : List Char → Nat → AttemptResult)
    (readF : List Char → Option (List Char)) (sp tp ce : List Char)
    (entries : List (List Char × List Char)) (results : List ConvResult)
    (hce : extension_map tp = some ce)
    (hok : convert_files cap readF sp tp entries = Except.ok results) :
    results.map (fun r => r.filename) =
      entries.map (fun e => splitext_root e.2 ++ ce) := by
  induction entries generalizing results with
  | nil =>
    simp only [convert_files] at hok
    simp at hok
    subst hok
    rfl
  | cons e rest ih =>
    simp only [convert_files] at hok
    rcases hr : readF e.1 with _ | src
    · rw [hr] at hok
      simp at hok
    · rw [hr] at hok
      rcases hrec : convert_files cap readF sp tp rest with u | rs
      · rw [hrec] at hok
        simp at hok
      · rw [hrec] at hok
        simp at hok
        subst hok
        simp only [List.map_cons]
        rw [ih rs hrec]
        rw [aux_get_converted_filename e.2 tp ce hce]

/-- Witness for C6: a single entry converted successfully to `ios_swift`
gets filename `Main.swift`. -/
theorem c6_output_filenames_remapped_witness :
    ([⟨strL "Main.swift", strL "ok", ConvStatus.success⟩] : List ConvResult).map
        (fun r => r.filename) =
      [(strL "/staging/Main.java", strL "Main.java")].map
        (fun e => splitext_root e.2 ++ strL ".swift") :=
  c6_output_filenames_remapped (fun _ _ => AttemptResult.response (strL "ok"))
    (fun _ => some (strL "class Main")) (strL "android_java") (strL "ios_swift")
    (strL ".swift") [(strL "/staging/Main.java", strL "Main.java")]
    [⟨strL "Main.swift", strL "ok", ConvStatus.success⟩] rfl rfl
